import Mathlib

/-!
A shallow embedding of the red-black binary search tree of this repository
(`BST<T>`, its nested `BNode` and `iterator`, and the `map` adapter built on
it).  The C++ code is a pointer structure mutated in place, so the embedding
models the node pool explicitly: a `Heap` is a list of optional nodes indexed
by address, `none` standing for a freed slot.  Null pointers are `Option Nat`
with `none`; dereferencing a null or dangling pointer is an explicit error.
Loops and recursions of the C++ code are given explicit fuel; running out of
fuel is an error distinct from the memory errors, so that termination
statements can be expressed.
-/

set_option linter.unusedVariables false
set_option synthInstance.maxSize 512

/-- One node of the tree: `BST<T>::BNode`.  `pLeft`, `pRight`, `pParent`
are the child/parent pointers (`none` = null), `isRed` the color bit
(defaulting to red exactly as in the C++ member initializer). -/
structure BNode (α : Type) where
  data : α
  pLeft : Option Nat
  pRight : Option Nat
  pParent : Option Nat
  isRed : Bool := true
deriving Repr, DecidableEq

/-- The node pool: slot `a` holds the node at address `a`, or `none` if that
address is unallocated or freed. -/
abbrev Heap (α : Type) : Type := List (Option (BNode α))

/-- Read slot `a` of the pool (our own accessor, so that its equations are
fully under our control). -/
def lget {α : Type} : Heap α → Nat → Option (BNode α)
  | [], _ => none
  | x :: _, 0 => x
  | _ :: xs, n + 1 => lget xs n

/-- Write slot `a` of the pool; out-of-range writes are dropped. -/
def lset {α : Type} : Heap α → Nat → Option (BNode α) → Heap α
  | [], _, _ => []
  | _ :: xs, 0, v => v :: xs
  | x :: xs, n + 1, v => x :: lset xs n v

/-- Allocate a fresh node (`new BNode(...)`): the address is the pool length. -/
def halloc {α : Type} (h : Heap α) (n : BNode α) : Heap α × Nat :=
  (h ++ [some n], h.length)

/-- Apply `f` to the node stored at `a` (in-place field mutation through a
live pointer); a dangling address leaves the pool unchanged. -/
def hmod {α : Type} (h : Heap α) (a : Nat) (f : BNode α → BNode α) : Heap α :=
  match lget h a with
  | some n => lset h a (some (f n))
  | none => h

/-- Free the node at `a` (`delete`). -/
def hfree {α : Type} (h : Heap α) (a : Nat) : Heap α :=
  lset h a none

/-- Memory errors: dereferencing a null pointer, or a pointer to a freed /
unallocated slot.  Both are undefined behaviour in the C++ source. -/
inductive HErr where
  | nullDeref
  | dangling
deriving Repr, DecidableEq

/-- Errors of the fueled semantics: a memory error, or fuel exhaustion
(the modelling device that lets non-termination be observed). -/
inductive CErr where
  | mem (e : HErr)
  | fuel
deriving Repr, DecidableEq

/-- Lift a memory-error computation into the fueled error monad. -/
def liftE {β : Type} : Except HErr β → Except CErr β
  | .ok b => .ok b
  | .error e => .error (.mem e)

/-- Dereference a possibly-null pointer. -/
def deref {α : Type} (h : Heap α) (p : Option Nat) : Except HErr (BNode α) :=
  match p with
  | none => .error .nullDeref
  | some a =>
    match lget h a with
    | none => .error .dangling
    | some n => .ok n

/-- Read the node behind a known-nonnull address. -/
def nodeAt {α : Type} (h : Heap α) (a : Nat) : Except HErr (BNode α) :=
  deref h (some a)

/-- `this->pLeft = p` through a live pointer. -/
def setL {α : Type} (h : Heap α) (a : Nat) (p : Option Nat) : Heap α :=
  hmod h a (fun n => { n with pLeft := p })

/-- `this->pRight = p` through a live pointer. -/
def setR {α : Type} (h : Heap α) (a : Nat) (p : Option Nat) : Heap α :=
  hmod h a (fun n => { n with pRight := p })

/-- `this->pParent = p` through a live pointer. -/
def setP {α : Type} (h : Heap α) (a : Nat) (p : Option Nat) : Heap α :=
  hmod h a (fun n => { n with pParent := p })

/-- `this->isRed = b` through a live pointer. -/
def setRed {α : Type} (h : Heap α) (a : Nat) (b : Bool) : Heap α :=
  hmod h a (fun n => { n with isRed := b })

/-- `BNode::isRightChild`.  Note that the C++ method ignores its argument:
it tests whether `this` is the right child of `this`'s *own* parent, read
fresh from memory (`pParent && pParent->pRight == this`). -/
def isRightChild {α : Type} (h : Heap α) (a : Nat) : Bool :=
  match lget h a with
  | none => false
  | some n =>
    match n.pParent with
    | none => false
    | some pa =>
      match lget h pa with
      | none => false
      | some pn => pn.pRight == some a

/-- `BNode::isLeftChild`; like `isRightChild`, the argument is ignored by
the source (`pParent && pParent->pLeft == this`). -/
def isLeftChild {α : Type} (h : Heap α) (a : Nat) : Bool :=
  match lget h a with
  | none => false
  | some n =>
    match n.pParent with
    | none => false
    | some pa =>
      match lget h pa with
      | none => false
      | some pn => pn.pLeft == some a

/-- `BNode::addLeft(BNode*)`: `if (pNode) pNode->pParent = this; pLeft = pNode`. -/
def addLeftPtr {α : Type} (h : Heap α) (self : Nat) (p : Option Nat) : Heap α :=
  let h1 := match p with
    | some c => setP h c (some self)
    | none => h
  setL h1 self p

/-- `BNode::addRight(BNode*)`: `if (pNode) pNode->pParent = this; pRight = pNode`. -/
def addRightPtr {α : Type} (h : Heap α) (self : Nat) (p : Option Nat) : Heap α :=
  let h1 := match p with
    | some c => setP h c (some self)
    | none => h
  setR h1 self p

/-- `BNode::addLeft(const T&)`: allocate a red node holding `t`, parent it to
`self`, store it in `self->pLeft`; returns the new address. -/
def addLeftVal {α : Type} (h : Heap α) (self : Nat) (t : α) : Heap α × Nat :=
  let (h1, a) := halloc h { data := t, pLeft := none, pRight := none, pParent := some self }
  (setL h1 self (some a), a)

/-- `BNode::addRight(const T&)`: mirror of `addLeftVal`. -/
def addRightVal {α : Type} (h : Heap α) (self : Nat) (t : α) : Heap α × Nat :=
  let (h1, a) := halloc h { data := t, pLeft := none, pRight := none, pParent := some self }
  (setR h1 self (some a), a)

/-- Require a pointer to be non-null, yielding its address (a null here is a
null-pointer method call / member write in the C++ source). -/
def reqAddr : Option Nat → Except HErr Nat
  | some a => .ok a
  | none => .error .nullDeref

/-- Fresh read of the `pParent` member of the node at `self`. -/
def parentOf {α : Type} (h : Heap α) (self : Nat) : Except HErr (Option Nat) := do
  let n ← nodeAt h self
  pure n.pParent

/-- The common shape test of the four rotation cases of `BNode::balance`:
`this->is{Left,Right}Child(pParent) && pParent->is{Left,Right}Child(pGrandparent)
&& pParent->isRed && !pGrandparent->isRed`, with C++ short-circuit order.
`firstLeft` picks the test applied to `this`, `secondLeft` the one applied to
the parent.  All reads are fresh from the current heap, exactly as the C++
member accesses are. -/
def condShape {α : Type} (h : Heap α) (self gp : Nat) (firstLeft secondLeft : Bool) :
    Except HErr Bool := do
  let c1 := if firstLeft then isLeftChild h self else isRightChild h self
  if !c1 then pure false
  else do
    let pp ← parentOf h self
    let pa ← reqAddr pp
    let c2 := if secondLeft then isLeftChild h pa else isRightChild h pa
    if !c2 then pure false
    else do
      let pn ← nodeAt h pa
      if !pn.isRed then pure false
      else do
        let gpn ← nodeAt h gp
        pure !gpn.isRed

/-- Body of balance case 4a (we are mom's left, mom is granny's left):
`pParent->addRight(pGrandparent); pGrandparent->addLeft(pSibling);
pParent->pParent = pGreatGranny;` then, if the great-grandparent exists,
`(pGrandparent->isRightChild(pGreatGranny)) ? pGreatGranny->pLeft = pParent
: pGreatGranny->pRight = pParent;` and finally `pParent->isRed = false;
pGrandparent->isRed = true;`.  `pParent` is the member (re-read at each
use); `pGrandparent`, `pGreatGranny`, `pSibling` are the captured locals. -/
def body4a {α : Type} (h : Heap α) (self gp : Nat) (ggPtr sibPtr : Option Nat) :
    Except HErr (Heap α) := do
  let pp1 ← parentOf h self
  let pa1 ← reqAddr pp1
  let h1 := addRightPtr h pa1 (some gp)
  let h2 := addLeftPtr h1 gp sibPtr
  let pp2 ← parentOf h2 self
  let pa2 ← reqAddr pp2
  let h3 := setP h2 pa2 ggPtr
  let h4 ← match ggPtr with
    | none => pure h3
    | some gg => do
      let pp3 ← parentOf h3 self
      pure (if isRightChild h3 gp then setL h3 gg pp3 else setR h3 gg pp3)
  let pp4 ← parentOf h4 self
  let pa4 ← reqAddr pp4
  pure (setRed (setRed h4 pa4 false) gp true)

/-- Body of balance case 4b (mirror of 4a: we are mom's right, mom is
granny's right): `pParent->addLeft(pGrandparent); pGrandparent->addRight(pSibling);`
then the same great-grandparent hookup and recoloring as 4a. -/
def body4b {α : Type} (h : Heap α) (self gp : Nat) (ggPtr sibPtr : Option Nat) :
    Except HErr (Heap α) := do
  let pp1 ← parentOf h self
  let pa1 ← reqAddr pp1
  let h1 := addLeftPtr h pa1 (some gp)
  let h2 := addRightPtr h1 gp sibPtr
  let pp2 ← parentOf h2 self
  let pa2 ← reqAddr pp2
  let h3 := setP h2 pa2 ggPtr
  let h4 ← match ggPtr with
    | none => pure h3
    | some gg => do
      let pp3 ← parentOf h3 self
      pure (if isRightChild h3 gp then setL h3 gg pp3 else setR h3 gg pp3)
  let pp4 ← parentOf h4 self
  let pa4 ← reqAddr pp4
  pure (setRed (setRed h4 pa4 false) gp true)

/-- Body of balance case 4c (we are mom's right, mom is granny's left):
`pGrandparent->addLeft(this->pRight); pParent->addRight(this->pLeft);
this->addRight(pGrandparent); this->addLeft(pParent);` then
`if (!pGreatGranny) pParent = pGreatGranny; else if
(pGrandparent->isRightChild(pGreatGranny)) pGreatGranny->pRight = pParent;
else pGreatGranny->pLeft = pParent;` and `pGrandparent->isRed = true;
isRed = false;`.  Note the C++ writes the *member* `pParent` in the
null-great-granny branch, and in the other branch attaches the member
`pParent` (the old mom) — not `this` — to the great-grandparent. -/
def body4c {α : Type} (h : Heap α) (self gp : Nat) (ggPtr : Option Nat) :
    Except HErr (Heap α) := do
  let n1 ← nodeAt h self
  let h1 := addLeftPtr h gp n1.pRight
  let pp1 ← parentOf h1 self
  let pa1 ← reqAddr pp1
  let n2 ← nodeAt h1 self
  let h2 := addRightPtr h1 pa1 n2.pLeft
  let h3 := addRightPtr h2 self (some gp)
  let pp2 ← parentOf h3 self
  let h4 := addLeftPtr h3 self pp2
  let h5 ← match ggPtr with
    | none => pure (setP h4 self none)
    | some gg => do
      let pp3 ← parentOf h4 self
      pure (if isRightChild h4 gp then setR h4 gg pp3 else setL h4 gg pp3)
  pure (setRed (setRed h5 gp true) self false)

/-- Body of balance case 4d (we are mom's left, mom is granny's right):
mirror image of 4c, with the same great-grandparent handling. -/
def body4d {α : Type} (h : Heap α) (self gp : Nat) (ggPtr : Option Nat) :
    Except HErr (Heap α) := do
  let n1 ← nodeAt h self
  let h1 := addRightPtr h gp n1.pLeft
  let pp1 ← parentOf h1 self
  let pa1 ← reqAddr pp1
  let n2 ← nodeAt h1 self
  let h2 := addLeftPtr h1 pa1 n2.pRight
  let h3 := addLeftPtr h2 self (some gp)
  let pp2 ← parentOf h3 self
  let h4 := addRightPtr h3 self pp2
  let h5 ← match ggPtr with
    | none => pure (setP h4 self none)
    | some gg => do
      let pp3 ← parentOf h4 self
      pure (if isRightChild h4 gp then setR h4 gg pp3 else setL h4 gg pp3)
  pure (setRed (setRed h5 gp true) self false)

/-- Case 4 of `BNode::balance` (aunt black or absent): the four rotation
cases are four *sequential* `if` statements in the source, each condition
re-evaluated on the heap as mutated by the previous one. -/
def case4 {α : Type} (h : Heap α) (self gp : Nat) (ggPtr sibPtr : Option Nat) :
    Except HErr (Heap α) := do
  let c4a ← condShape h self gp true true
  let h1 ← if c4a then body4a h self gp ggPtr sibPtr else pure h
  let c4b ← condShape h1 self gp false false
  let h2 ← if c4b then body4b h1 self gp ggPtr sibPtr else pure h1
  let c4c ← condShape h2 self gp false true
  let h3 ← if c4c then body4c h2 self gp ggPtr else pure h2
  let c4d ← condShape h3 self gp true false
  if c4d then body4d h3 self gp ggPtr else pure h3

/-- `BNode::balance`, with explicit fuel bounding the case-3 recursion.
Case 1: at the root, recolor black.  Case 2: black parent, done.  Otherwise
the grandparent pointer is read from the parent and dereferenced (a red
parent that is the root makes this a null dereference, as in the C++), the
aunt and sibling pointers are computed, and either case 3 (red aunt:
recolor the grandparent, recurse on it, then blacken parent and aunt) or
case 4 (rotations) runs. -/
def balance {α : Type} : Nat → Heap α → Nat → Except CErr (Heap α)
  | 0, _, _ => .error .fuel
  | fuel + 1, h, self => do
    let n ← liftE (nodeAt h self)
    match n.pParent with
    | none => .ok (setRed h self false)
    | some pa => do
      let pn ← liftE (nodeAt h pa)
      if !pn.isRed then .ok h
      else
        match pn.pParent with
        | none => .error (.mem .nullDeref)
        | some gp => do
          let gpn ← liftE (nodeAt h gp)
          let ggPtr := gpn.pParent
          let auntPtr := if some pa == gpn.pLeft then gpn.pRight else gpn.pLeft
          let sibPtr := if isLeftChild h self then pn.pRight else pn.pLeft
          match auntPtr with
          | some au => do
            let an ← liftE (nodeAt h au)
            if an.isRed then do
              let h1 := setRed h gp true
              let h2 ← balance fuel h1 gp
              let ppA ← liftE (parentOf h2 self)
              let paA ← liftE (reqAddr ppA)
              .ok (setRed (setRed h2 paA false) au false)
            else
              liftE (case4 h self gp ggPtr sibPtr)
          | none =>
            liftE (case4 h self gp ggPtr sibPtr)

/-- The tree object `BST<T>`: its `root` pointer and `numElements` count,
together with the pool of nodes it owns.  (In C++ the pool is the global
allocator; since distinct trees never share nodes, giving each tree its own
pool is faithful.)  `numElements` is a C++ `size_t`; no claim exercises its
wrap-around, so it is a `Nat` here. -/
structure BST (α : Type) where
  heap : Heap α
  root : Option Nat
  numElements : Nat
deriving Repr, DecidableEq

/-- `BST()`: empty tree. -/
def BST.mkEmpty (α : Type) : BST α :=
  { heap := [], root := none, numElements := 0 }

/-- `BST::empty()`: `root == nullptr`. -/
def BST.isEmptyT {α : Type} (st : BST α) : Bool :=
  st.root == none

/-- `BST::_insert(BNode*& pNode, const T& t, bool keepUnique)`, called with a
non-null `pNode` (the only way `BST::insert` reaches it).  `lt` and `eq` are
the element type's `<` and `==`; `rootField` is the address held by the
tree's `root` member, which the source reads *after* balancing
(`iterator(root->pLeft)` / `iterator(root->pRight)`) to build the returned
iterator.  Returns the new heap, the iterator (a node pointer) and the
`inserted` flag. -/
def insertAux {α : Type} (lt eq : α → α → Bool) :
    Nat → Heap α → Nat → Nat → α → Bool → Except CErr (Heap α × Option Nat × Bool)
  | 0, _, _, _, _, _ => .error .fuel
  | fuel + 1, h, rootField, a, t, keepUnique => do
    let n ← liftE (nodeAt h a)
    if keepUnique && eq t n.data then
      .ok (h, some a, false)
    else if lt t n.data then
      match n.pLeft with
      | some l => insertAux lt eq fuel h rootField l t keepUnique
      | none => do
        let (h1, newA) := addLeftVal h a t
        let h2 ← balance (h1.length + 1) h1 newA
        let rn ← liftE (nodeAt h2 rootField)
        .ok (h2, rn.pLeft, true)
    else
      match n.pRight with
      | some r => insertAux lt eq fuel h rootField r t keepUnique
      | none => do
        let (h1, newA) := addRightVal h a t
        let h2 ← balance (h1.length + 1) h1 newA
        let rn ← liftE (nodeAt h2 rootField)
        .ok (h2, rn.pRight, true)

/-- The `while (root->pParent) root = root->pParent;` loop of `BST::insert`. -/
def rootWalk {α : Type} : Nat → Heap α → Nat → Except CErr Nat
  | 0, _, _ => .error .fuel
  | fuel + 1, h, a => do
    let n ← liftE (nodeAt h a)
    match n.pParent with
    | none => .ok a
    | some pa => rootWalk fuel h pa

/-- `BST::insert(const T& t, bool keepUnique)`: on a non-empty tree, run
`_insert` from the root, bump the count if a node was created, then re-derive
the root by walking parent links upward; on an empty tree allocate a black
root.  Returns the updated tree and the `(iterator, inserted)` pair. -/
def BST.insert {α : Type} (lt eq : α → α → Bool) (fuel : Nat) (st : BST α)
    (t : α) (keepUnique : Bool := false) : Except CErr (BST α × Option Nat × Bool) :=
  match st.root with
  | some r => do
    let (h1, it, inserted) ← insertAux lt eq fuel st.heap r r t keepUnique
    let n1 := if inserted then st.numElements + 1 else st.numElements
    let newRoot ← rootWalk fuel h1 r
    .ok ({ heap := h1, root := some newRoot, numElements := n1 }, it, inserted)
  | none =>
    let (h1, a) := halloc st.heap
      { data := t, pLeft := none, pRight := none, pParent := none, isRed := false }
    .ok ({ heap := h1, root := some a, numElements := st.numElements + 1 }, some a, true)

/-- The descent loop of `BST::find`: `while (p) { if (p->data == t) return
iterator(p); else if (t < p->data) p = p->pLeft; else p = p->pRight; }
return end();`.  `none` is the end iterator. -/
def findAux {α : Type} (lt eq : α → α → Bool) :
    Nat → Heap α → Option Nat → α → Except CErr (Option Nat)
  | 0, _, _, _ => .error .fuel
  | fuel + 1, h, p, t =>
    match p with
    | none => .ok none
    | some a => do
      let n ← liftE (nodeAt h a)
      if eq n.data t then .ok (some a)
      else if lt t n.data then findAux lt eq fuel h n.pLeft t
      else findAux lt eq fuel h n.pRight t

/-- `BST::find(const T& t)`: iterative descent from the root. -/
def BST.find {α : Type} (lt eq : α → α → Bool) (fuel : Nat) (st : BST α) (t : α) :
    Except CErr (Option Nat) :=
  findAux lt eq fuel st.heap st.root t

/-- The `while (pNode->pLeft) pNode = pNode->pLeft;` descent. -/
def leftmost {α : Type} : Nat → Heap α → Nat → Except CErr Nat
  | 0, _, _ => .error .fuel
  | fuel + 1, h, a => do
    let n ← liftE (nodeAt h a)
    match n.pLeft with
    | none => .ok a
    | some l => leftmost fuel h l

/-- The `while (pNode->pRight) pNode = pNode->pRight;` descent. -/
def rightmost {α : Type} : Nat → Heap α → Nat → Except CErr Nat
  | 0, _, _ => .error .fuel
  | fuel + 1, h, a => do
    let n ← liftE (nodeAt h a)
    match n.pRight with
    | none => .ok a
    | some r => rightmost fuel h r

/-- `BST::begin()`: the end iterator on an empty tree, else the leftmost
node from the root. -/
def BST.begin {α : Type} (fuel : Nat) (st : BST α) : Except CErr (Option Nat) :=
  match st.root with
  | none => .ok none
  | some r => do
    let l ← leftmost fuel st.heap r
    .ok (some l)

/-- The climb loop of `iterator::operator++`:
`while (pNode->pParent && pNode->isRightChild(pNode->pParent)) pNode = pNode->pParent;`. -/
def climbWhileRight {α : Type} : Nat → Heap α → Nat → Except CErr Nat
  | 0, _, _ => .error .fuel
  | fuel + 1, h, a => do
    let n ← liftE (nodeAt h a)
    match n.pParent with
    | none => .ok a
    | some pa =>
      if isRightChild h a then climbWhileRight fuel h pa
      else .ok a

/-- `iterator::operator++` (prefix).  With a right child: right then as far
left as possible.  Without one: if we are the parent's left child, step to
the parent; if we are the parent's right child, climb while a right child,
then one step further up.  A node that matches none of these (the root with
no right child) falls through every `if` and the iterator is returned
*unchanged* — the source has no branch for it. -/
def iterInc {α : Type} (fuel : Nat) (h : Heap α) (it : Option Nat) :
    Except CErr (Option Nat) :=
  match it with
  | none => .ok none
  | some a => do
    let n ← liftE (nodeAt h a)
    match n.pRight with
    | some r => do
      let l ← leftmost fuel h r
      .ok (some l)
    | none =>
      if isLeftChild h a then do
        let n2 ← liftE (nodeAt h a)
        .ok n2.pParent
      else if isRightChild h a then do
        let b ← climbWhileRight fuel h a
        let bn ← liftE (nodeAt h b)
        .ok bn.pParent
      else
        .ok (some a)

/-- The values visited by starting at iterator `it` and applying
`operator++` up to `k` times, stopping early at the end iterator.  (The
in-order traversal a user of the iterator observes.) -/
def iterTake {α : Type} (fuel : Nat) (h : Heap α) : Option Nat → Nat → Except CErr (List α)
  | _, 0 => .ok []
  | none, _ + 1 => .ok []
  | some a, k + 1 => do
    let n ← liftE (nodeAt h a)
    let nxt ← iterInc fuel h (some a)
    let rest ← iterTake fuel h nxt k
    .ok (n.data :: rest)

/-- `BST::erase(iterator& it)`.  A null iterator is returned unchanged with
the tree untouched.  Otherwise the source dispatches on the children of the
node: no children — compute the successor, null the parent's matching child
slot (the false branch of the ternary dereferences `pParent` even when it is
null), delete; one child — splice the child up, with the same
null-parent dereference in the ternary's false branch; two children —
detach the in-order successor, graft it into the erased node's position,
update `root` if the erased node was the root.  `numElements` is decremented
(`size_t` wrap-around at 0 is not modelled; no claim exercises it).  Returns
the updated tree and the returned iterator. -/
def BST.erase {α : Type} (fuel : Nat) (st : BST α) (it : Option Nat) :
    Except CErr (BST α × Option Nat) :=
  match it with
  | none => .ok (st, none)
  | some a => do
    let h := st.heap
    let n ← liftE (nodeAt h a)
    if n.pRight = none && n.pLeft = none then do
      -- CASE ONE: no children
      let itNext ← iterInc fuel h (some a)
      let cond := n.pParent.isSome && isRightChild h a
      let h1 ← if cond then do
          let pAdr ← liftE (reqAddr n.pParent)
          pure (setR h pAdr none)
        else do
          let pAdr ← liftE (reqAddr n.pParent)
          pure (setL h pAdr none)
      let h2 := hfree h1 a
      .ok ({ heap := h2, root := st.root, numElements := st.numElements - 1 }, itNext)
    else if n.pRight = none && n.pLeft.isSome then do
      -- CASE TWO: only a left child
      let itNext ← iterInc fuel h (some a)
      let lAdr ← liftE (reqAddr n.pLeft)
      let h1 := setP h lAdr n.pParent
      let n1 ← liftE (nodeAt h1 a)
      let cond := n1.pParent.isSome && isRightChild h1 a
      let h2 ← if cond then do
          let pAdr ← liftE (reqAddr n1.pParent)
          pure (setR h1 pAdr n1.pLeft)
        else do
          let pAdr ← liftE (reqAddr n1.pParent)
          pure (setL h1 pAdr n1.pLeft)
      let h3 := hfree h2 a
      .ok ({ heap := h3, root := st.root, numElements := st.numElements - 1 }, itNext)
    else if n.pLeft = none && n.pRight.isSome then do
      -- CASE TWO, mirrored: only a right child
      let itNext ← iterInc fuel h (some a)
      let rAdr ← liftE (reqAddr n.pRight)
      let h1 := setP h rAdr n.pParent
      let n1 ← liftE (nodeAt h1 a)
      let cond := n1.pParent.isSome && isRightChild h1 a
      let h2 ← if cond then do
          let pAdr ← liftE (reqAddr n1.pParent)
          pure (setR h1 pAdr n1.pRight)
        else do
          let pAdr ← liftE (reqAddr n1.pParent)
          pure (setL h1 pAdr n1.pRight)
      let h3 := hfree h2 a
      .ok ({ heap := h3, root := st.root, numElements := st.numElements - 1 }, itNext)
    else do
      -- CASE THREE: two children
      let succOpt ← iterInc fuel h (some a)
      let succ ← liftE (reqAddr succOpt)
      let sn ← liftE (nodeAt h succ)
      let h1 ← if isLeftChild h succ then do
          let pAdr ← liftE (reqAddr sn.pParent)
          pure (setL h pAdr sn.pRight)
        else do
          let pAdr ← liftE (reqAddr sn.pParent)
          pure (setR h pAdr sn.pRight)
      let sn1 ← liftE (nodeAt h1 succ)
      let h2 := match sn1.pRight with
        | some sr => setP h1 sr sn1.pParent
        | none => h1
      let en ← liftE (nodeAt h2 a)
      let h3 ← match en.pParent with
        | some ep =>
          if isLeftChild h2 a then pure (setL h2 ep (some succ))
          else pure (setR h2 ep (some succ))
        | none => pure h2
      let newRoot := match en.pParent with
        | some _ => st.root
        | none => some succ
      let en3 ← liftE (nodeAt h3 a)
      let h4 := setP h3 succ en3.pParent
      let en4 ← liftE (nodeAt h4 a)
      let h5 := setL h4 succ en4.pLeft
      let en5 ← liftE (nodeAt h5 a)
      let h6 := setR h5 succ en5.pRight
      let en6 ← liftE (nodeAt h6 a)
      let h7 := match en6.pLeft with
        | some el => setP h6 el (some succ)
        | none => h6
      let en7 ← liftE (nodeAt h7 a)
      let h8 := match en7.pRight with
        | some er => setP h7 er (some succ)
        | none => h7
      let h9 := hfree h8 a
      .ok ({ heap := h9, root := newRoot, numElements := st.numElements - 1 }, succOpt)

/-- `BST::_clear`: post-order destruction; each recursive call nulls the
child slot it was handed by reference before the node itself is deleted. -/
def clearAux {α : Type} : Nat → Heap α → Option Nat → Except CErr (Heap α)
  | 0, _, _ => .error .fuel
  | fuel + 1, h, p =>
    match p with
    | none => .ok h
    | some a => do
      let n ← liftE (nodeAt h a)
      let h1 ← clearAux fuel h n.pLeft
      let h1L := setL h1 a none
      let n2 ← liftE (nodeAt h1L a)
      let h2 ← clearAux fuel h1L n2.pRight
      let h2R := setR h2 a none
      .ok (hfree h2R a)

/-- `BST::clear()`: `numElements = 0; _clear(root);` — the reference write
inside `_clear` nulls the root pointer. -/
def BST.clear {α : Type} (fuel : Nat) (st : BST α) : Except CErr (BST α) := do
  let h ← clearAux fuel st.heap st.root
  .ok { heap := h, root := none, numElements := 0 }

/-- `BST::swap`: exchange the root pointers and the element counts.  With a
per-tree node pool this transfers ownership of the pools as well. -/
def BST.swapT {α : Type} (a b : BST α) : BST α × BST α :=
  ({ heap := b.heap, root := b.root, numElements := b.numElements },
   { heap := a.heap, root := a.root, numElements := a.numElements })

/-- `BST::BST(BST&& rhs)`: steal `root` and `numElements`, then set
`rhs.root = nullptr; rhs.numElements = 0;`.  Returns (destination,
moved-from source). -/
def BST.moveCtor {α : Type} (rhs : BST α) : BST α × BST α :=
  ({ heap := rhs.heap, root := rhs.root, numElements := rhs.numElements },
   { heap := rhs.heap, root := none, numElements := 0 })

/-- `BST::operator=(BST&& rhs)`: `clear(); swap(rhs);`.  Returns
(destination, moved-from source). -/
def BST.moveAssign {α : Type} (fuel : Nat) (dst src : BST α) :
    Except CErr (BST α × BST α) := do
  let d ← BST.clear fuel dst
  .ok (BST.swapT d src)

/-- Length of the parent chain from `a` up to the root (`some d` when the
chain reaches a parentless live node in `d` steps within the fuel;
`none` when a pointer dangles or the fuel runs out, e.g. on a cyclic
parent graph). -/
def upDepth {α : Type} : Nat → Heap α → Nat → Option Nat
  | 0, _, _ => none
  | fuel + 1, h, a =>
    match (lget h a).map BNode.pParent with
    | none => none
    | some none => some 0
    | some (some pa) => (upDepth fuel h pa).map (· + 1)

/-- `<` on `int` elements. -/
def intLt (a b : Int) : Bool := a < b

/-- `==` on `int` elements. -/
def intEq (a b : Int) : Bool := a == b

/-- Insert a list of values left to right (`for (auto& it : il) insert(it)` /
a test driver's insert loop), with the given `keepUnique` flag. -/
def insertList {α : Type} (lt eq : α → α → Bool) (fuel : Nat) :
    BST α → List α → Bool → Except CErr (BST α)
  | st, [], _ => .ok st
  | st, t :: ts, ku => do
    let (st1, _, _) ← BST.insert lt eq fuel st t ku
    insertList lt eq fuel st1 ts ku

/-- Build an `int` tree by inserting the values in order into an empty tree. -/
def buildInt (l : List Int) (ku : Bool) : Except CErr (BST Int) :=
  insertList intLt intEq 100 (BST.mkEmpty Int) l ku

/-- Modelled from the spec: `custom::pair<int, string>` used by the map
adapter.  Its definition (`src/Map/pair.h`) is not under `src/`; the spec
says the map "compares and orders strictly by key", so comparison and
equality look only at `first`. -/
structure KVPair where
  first : Int
  second : String
deriving Repr, DecidableEq

/-- Modelled from the spec: key-only `<` of `custom::pair`. -/
def pairLt (a b : KVPair) : Bool := a.first < b.first

/-- Modelled from the spec: key-only `==` of `custom::pair`. -/
def pairEq (a b : KVPair) : Bool := a.first == b.first

/-- `map::insert(const Pairs& rhs)`: `bst.insert(rhs)` — note the call
leaves `keepUnique` at its default `false` — then repackage as
`(iterator, wasNewNodeCreated)`. -/
def mapInsert (fuel : Nat) (st : BST KVPair) (p : KVPair) :
    Except CErr (BST KVPair × Option Nat × Bool) :=
  BST.insert pairLt pairEq fuel st p

/-- Decidable equality of `Except` results, so that concrete runs of the
model can be checked by `decide`. -/
instance {e b : Type} [DecidableEq e] [DecidableEq b] : DecidableEq (Except e b) := fun x y =>
  match x, y with
  | .ok u, .ok v =>
    if h : u = v then .isTrue (by rw [h]) else .isFalse (by intro hc; cases hc; exact h rfl)
  | .error u, .error v =>
    if h : u = v then .isTrue (by rw [h]) else .isFalse (by intro hc; cases hc; exact h rfl)
  | .ok _, .error _ => .isFalse (by intro hc; cases hc)
  | .error _, .ok _ => .isFalse (by intro hc; cases hc)

/-- Observer: the value of a successful run. -/
def okOf {b : Type} : Except CErr b → Option b
  | .ok v => some v
  | .error _ => none

/-- Observer: `(data, isRed)` of the node a pointer designates. -/
def childView {α : Type} (h : Heap α) (p : Option Nat) : Option (α × Bool) :=
  (p.bind (lget h)).map (fun n => (n.data, n.isRed))

/-- Observer: the root node's `(data, isRed)` together with the
`(data, isRed)` of its left and right children. -/
def rootView {α : Type} (st : BST α) : Option (α × Bool × Option (α × Bool) × Option (α × Bool)) :=
  (st.root.bind (lget st.heap)).map
    (fun n => (n.data, n.isRed, childView st.heap n.pLeft, childView st.heap n.pRight))

/-- C1: the claim says that for every sequence of `insert`s with
`keepUnique=true` into an empty tree, in-order iteration from `begin()` is
strictly increasing and visits each distinct inserted value exactly once.
The code violates it: after inserting 10, 20, 30, 25, 23, the insertion of
23 triggers rotation case 4a under a great-grandparent whose right child
was the grandparent, and the buggy reattachment corrupts the tree.  The
first six values the iterator visits are 23, 25, 30, 20, 30, 20 — not
strictly increasing, 20 and 30 visited twice, the inserted 10 never
visited — and the iterator cycles forever between the nodes holding 20
(address 1) and 30 (address 2), never reaching `end()`. -/
theorem c1_inorder_iteration_broken :
    (do
      let st ← buildInt [10, 20, 30, 25, 23] true
      let b ← BST.begin 100 st
      iterTake 100 st.heap b 6) = .ok [23, 25, 30, 20, 30, 20] ∧
    ¬ List.Pairwise (fun x y : Int => x < y) [23, 25, 30, 20, 30, 20] ∧
    List.count (20 : Int) [23, 25, 30, 20, 30, 20] = 2 ∧
    (10 : Int) ∉ [(23 : Int), 25, 30, 20, 30, 20] ∧
    (do
      let st ← buildInt [10, 20, 30, 25, 23] true
      iterInc 100 st.heap (some 1)) = .ok (some 2) ∧
    (do
      let st ← buildInt [10, 20, 30, 25, 23] true
      iterInc 100 st.heap (some 2)) = .ok (some 1) := by
  exact ⟨by decide, by decide, by decide, by decide, by decide, by decide⟩

/-- C2: the claim (and the spec) demand that after any rotation the new top
of the rotated subtree be attached to the former great-grandparent in the
child slot the grandparent occupied.  The code violates it.  After inserting
10, 20, 30, 25 the node 30 (address 2) is the *right* child of the root 20
(address 1).  Inserting 23 makes 25 (address 3) the new top of a case-4a
rotation whose grandparent is 30 and great-grandparent is 20; the code
writes 25 into 20's *left* slot (`isRightChild` ignores its argument and is
consulted after the rotation has already re-parented the grandparent, and
the ternary's branches are swapped), clobbering the slot of 10 (address 0)
while 20's right slot still points at 30, whose parent is now 25. -/
theorem c2_rotation_reattaches_wrong_slot :
    (buildInt [10, 20, 30, 25] true).map rootView =
      .ok (some (20, false, some (10, false), some (30, false))) ∧
    ((okOf (buildInt [10, 20, 30, 25] true)).bind
      (fun st => st.root.bind (lget st.heap) |>.map (fun n => (n.pLeft, n.pRight)))) =
      some (some 0, some 2) ∧
    ((okOf (buildInt [10, 20, 30, 25, 23] true)).bind
      (fun st => st.root.bind (lget st.heap) |>.map (fun n => (n.pLeft, n.pRight)))) =
      some (some 3, some 2) ∧
    ((okOf (buildInt [10, 20, 30, 25, 23] true)).bind
      (fun st => (lget st.heap 3).map (fun n => (n.data, n.pParent, n.pLeft, n.pRight)))) =
      some (25, some 1, some 4, some 2) ∧
    ((okOf (buildInt [10, 20, 30, 25, 23] true)).bind
      (fun st => (lget st.heap 2).map (fun n => (n.data, n.pParent)))) =
      some (30, some 3) ∧
    ((okOf (buildInt [10, 20, 30, 25, 23] true)).bind
      (fun st => (lget st.heap 0).map (fun n => (n.data, n.pParent)))) =
      some (10, some 1) := by
  exact ⟨by decide, by decide, by decide, by decide, by decide, by decide⟩

/-- C3: the claim says `erase(find(v))` then `find(v)` returns end and the
size drops by one for every position of `v`, including a root with zero or
one child.  The code violates it: erasing the root of a single-node tree
(no children) takes the false branch of the ternary in erase's case one and
dereferences the root's null parent (`it.pNode->pParent->pLeft`); likewise
for a root with one child in case two. -/
theorem c3_erase_root_null_parent_deref :
    (do
      let st ← buildInt [5] false
      let it ← BST.find intLt intEq 100 st 5
      BST.erase 100 st it) = .error (.mem .nullDeref) ∧
    (do
      let st ← buildInt [5, 3] false
      let it ← BST.find intLt intEq 100 st 5
      BST.erase 100 st it) = .error (.mem .nullDeref) := by
  exact ⟨by decide, by decide⟩

/-- C4: `begin()` on an empty tree does equal `end()` (the null iterator),
but the second half of the claim fails: in the single-node tree built by
inserting 10, the last in-order element is the root, and `operator++` on
its iterator falls through every branch (no right child, not a left child,
not a right child) and returns the iterator unchanged — still the root's
address, not `end()`. -/
theorem c4_increment_at_root_last_not_end :
    BST.begin 100 (BST.mkEmpty Int) = .ok none ∧
    (do
      let st ← buildInt [10] false
      BST.begin 100 st) = .ok (some 0) ∧
    (do
      let st ← buildInt [10] false
      let b ← BST.begin 100 st
      iterInc 100 st.heap b) = .ok (some 0) ∧
    some 0 ≠ (none : Option Nat) := by
  exact ⟨by decide, by decide, by decide, by decide⟩

/-- C5 counterexample: the claim asserts that after inserting 10, 20, 30 in
increasing order the root holds 20 and is black with 10 and 30 as *black*
children.  The code produces 10 and 30 red (case 4b recolors the parent 20
black and the grandparent 10 red, and the freshly inserted 30 stays red),
so the claimed all-black view is not what the code yields. -/
theorem c5_counterexample :
    ¬ ((buildInt [10, 20, 30] false).map rootView =
        .ok (some (20, false, some (10, false), some (30, false)))) := by
  decide

/-- C5 amended: after inserting 10, 20, 30 in increasing order the root
holds 20 and is black, with 10 as its left child and 30 as its right
child, both colored red. -/
theorem c5_children_red_after_ascending_inserts :
    (buildInt [10, 20, 30] false).map rootView =
      .ok (some (20, false, some (10, true), some (30, true))) := by
  decide

/-- C6: the claim says the second map-adapter insert of an equal key
reports `inserted=false` and leaves the stored value and size unchanged.
The code violates it: `map::insert` forwards to `bst.insert(rhs)` without
passing `keepUnique`, which therefore defaults to `false`, so inserting
(1,"a") and then (1,"b") reports `inserted=true` both times, stores both
pairs, and leaves the map with size 2. -/
theorem c6_map_duplicate_key_inserted :
    (do
      let (st1, _, b1) ← mapInsert 100 (BST.mkEmpty KVPair) ⟨1, "a"⟩
      let (st2, _, b2) ← mapInsert 100 st1 ⟨1, "b"⟩
      pure (b1, b2, st2.numElements, st2.heap.map (Option.map BNode.data)))
    = .ok (true, true, 2, [some ⟨1, "a"⟩, some ⟨1, "b"⟩]) := by
  decide

/-- Reduction of an `Except` bind on a success. -/
theorem exc_bind_ok {e b c : Type} (x : b) (k : b → Except e c) :
    (Except.ok x >>= k) = k x := rfl

/-- Reduction of an `Except` bind on an error. -/
theorem exc_bind_err {e b c : Type} (er : e) (k : b → Except e c) :
    ((Except.error er : Except e b) >>= k) = Except.error er := rfl

/-- A successful `lget` result is an element of the pool list. -/
theorem lget_mem {α : Type} (h : Heap α) (a : Nat) (n : BNode α)
    (hx : lget h a = some n) : some n ∈ h := by
  induction h generalizing a with
  | nil => simp [lget] at hx
  | cons x xs ih =>
    cases a with
    | zero =>
      simp only [lget] at hx
      exact hx ▸ List.mem_cons_self x xs
    | succ b =>
      simp only [lget] at hx
      exact List.mem_cons_of_mem x (ih b hx)

/-- The descent loop of `find` can only answer a node whose data compares
`==` to the sought value; if no live node's data does, every terminating
run answers the end iterator. -/
theorem findAux_absent {α : Type} (lt eq : α → α → Bool) (t : α) :
    ∀ (fuel : Nat) (h : Heap α) (p : Option Nat) (r : Option Nat),
      (∀ os ∈ h, ∀ n : BNode α, os = some n → eq n.data t = false) →
      findAux lt eq fuel h p t = .ok r → r = none := by
  intro fuel
  induction fuel with
  | zero =>
    intro h p r habs hrun
    simp [findAux] at hrun
  | succ f ih =>
    intro h p r habs hrun
    cases p with
    | none =>
      simp only [findAux, Except.ok.injEq] at hrun
      exact hrun.symm
    | some a =>
      cases hn : lget h a with
      | none =>
        simp only [findAux, nodeAt, deref, hn, liftE, exc_bind_err] at hrun
        cases hrun
      | some n =>
        have hne : eq n.data t = false := habs (some n) (lget_mem h a n hn) n rfl
        simp only [findAux, nodeAt, deref, hn, liftE, exc_bind_ok, hne,
          Bool.false_eq_true, if_false] at hrun
        split at hrun
        · exact ih h n.pLeft r habs hrun
        · exact ih h n.pRight r habs hrun

/-- C7: for every tree whose pool holds no node whose data compares equal
to `t`, a terminating `BST::find` run answers the end iterator (`find`
performs no writes at all — its result carries no heap); and
`BST::erase` applied to the end iterator returns the end iterator with the
tree — root, every node, and size — unchanged. -/
theorem c7_find_absent_end_and_erase_end_noop :
    (∀ (fuel : Nat) (st : BST Int) (t : Int) (r : Option Nat),
      (∀ os ∈ st.heap, ∀ n : BNode Int, os = some n → intEq n.data t = false) →
      BST.find intLt intEq fuel st t = .ok r → r = none) ∧
    (∀ (fuel : Nat) (st : BST Int), BST.erase fuel st none = .ok (st, none)) :=
  ⟨fun fuel st t r habs hrun => findAux_absent intLt intEq t fuel st.heap st.root r habs hrun,
   fun fuel st => rfl⟩

/-- Witness for C7 at a concrete input: the single-node tree holding 10,
searched for the absent value 42, and `erase` at the end iterator. -/
theorem c7_witness :
    (∀ os ∈ ([some ⟨10, none, none, none, false⟩] : Heap Int),
      ∀ n : BNode Int, os = some n → intEq n.data 42 = false) ∧
    BST.find intLt intEq 3 ⟨[some ⟨10, none, none, none, false⟩], some 0, 1⟩ 42 = .ok none ∧
    (none : Option Nat) = none ∧
    BST.erase 5 (⟨[some ⟨10, none, none, none, false⟩], some 0, 1⟩ : BST Int) none =
      .ok ((⟨[some ⟨10, none, none, none, false⟩], some 0, 1⟩ : BST Int), none) :=
  ⟨by decide, by decide,
   c7_find_absent_end_and_erase_end_noop.1 3
     ⟨[some ⟨10, none, none, none, false⟩], some 0, 1⟩ 42 none (by decide) (by decide),
   c7_find_absent_end_and_erase_end_noop.2 5
     ⟨[some ⟨10, none, none, none, false⟩], some 0, 1⟩⟩

/-- Inversion of a successful `Except` bind. -/
theorem exc_bind_eq_ok {e b c : Type} {x : Except e b} {k : b → Except e c} {v : c}
    (hx : (x >>= k) = .ok v) : ∃ u, x = .ok u ∧ k u = .ok v := by
  cases x with
  | ok u => exact ⟨u, rfl, hx⟩
  | error er => cases hx

/-- Inversion of a successful lifted memory-level computation. -/
theorem liftE_eq_ok {b : Type} {x : Except HErr b} {u : b}
    (hx : liftE x = .ok u) : x = .ok u := by
  cases x with
  | ok w => cases hx; rfl
  | error er => cases hx

/-- Inversion of a successful `nodeAt`. -/
theorem nodeAt_eq_ok {α : Type} {h : Heap α} {a : Nat} {n : BNode α}
    (hx : nodeAt h a = .ok n) : lget h a = some n := by
  simp only [nodeAt, deref] at hx
  cases hl : lget h a with
  | none => rw [hl] at hx; cases hx
  | some m => rw [hl] at hx; cases hx; rfl

/-- Whenever `_insert` reports `inserted=true`, the iterator it returns was
built from the `pLeft` or `pRight` member of the node the tree's `root`
field designates, read in the post-balance heap — never from the freshly
created node's own address. -/
theorem insertAux_ok_true_iter {α : Type} (lt eq : α → α → Bool) :
    ∀ (fuel : Nat) (h : Heap α) (rootF a : Nat) (t : α) (ku : Bool)
      (h' : Heap α) (it : Option Nat),
      insertAux lt eq fuel h rootF a t ku = .ok (h', it, true) →
      ∃ rn, lget h' rootF = some rn ∧ (it = rn.pLeft ∨ it = rn.pRight) := by
  intro fuel
  induction fuel with
  | zero =>
    intro h rootF a t ku h' it hrun
    simp [insertAux] at hrun
  | succ f ih =>
    intro h rootF a t ku h' it hrun
    cases hn : lget h a with
    | none =>
      simp only [insertAux, nodeAt, deref, hn, liftE, exc_bind_err] at hrun
      cases hrun
    | some n =>
      simp only [insertAux, nodeAt, deref, hn, liftE, exc_bind_ok] at hrun
      by_cases hku : (ku && eq t n.data) = true
      · simp [hku] at hrun
      · rw [Bool.not_eq_true] at hku
        rw [hku] at hrun
        simp only [Bool.false_eq_true, if_false] at hrun
        split at hrun
        · cases hl : n.pLeft with
          | some l =>
            rw [hl] at hrun
            exact ih h rootF l t ku h' it hrun
          | none =>
            rw [hl] at hrun
            obtain ⟨h2, hb, hrun⟩ := exc_bind_eq_ok hrun
            obtain ⟨rn, hrn, hrun⟩ := exc_bind_eq_ok hrun
            have hr : lget h2 rootF = some rn := nodeAt_eq_ok (liftE_eq_ok hrn)
            simp only [Except.ok.injEq, Prod.mk.injEq] at hrun
            obtain ⟨hh, hit, -⟩ := hrun
            refine ⟨rn, ?_, Or.inl hit.symm⟩
            rw [← hh]
            exact hr
        · cases hl : n.pRight with
          | some r =>
            rw [hl] at hrun
            exact ih h rootF r t ku h' it hrun
          | none =>
            rw [hl] at hrun
            obtain ⟨h2, hb, hrun⟩ := exc_bind_eq_ok hrun
            obtain ⟨rn, hrn, hrun⟩ := exc_bind_eq_ok hrun
            have hr : lget h2 rootF = some rn := nodeAt_eq_ok (liftE_eq_ok hrn)
            simp only [Except.ok.injEq, Prod.mk.injEq] at hrun
            obtain ⟨hh, hit, -⟩ := hrun
            refine ⟨rn, ?_, Or.inr hit.symm⟩
            rw [← hh]
            exact hr

/-- C9: for every successful insert into a non-empty tree, the returned
iterator is built from the `pLeft` or `pRight` member of the node the
tree's `root` pointer designated when `_insert` started (read in the
post-balance heap) — not from the newly created node.  Concretely, in the
tree built from 2, 1, 3: inserting 0 links the new node (address 3) as a
left child and returns `iterator(root->pLeft)` — the node holding 1, not
0; inserting 4 links as a right child and returns `iterator(root->pRight)`
— the node holding 3, not 4. -/
theorem c9_insert_iterator_from_root_child :
    (∀ (lt eq : Int → Int → Bool) (fuel : Nat) (st : BST Int) (t : Int) (ku : Bool)
        (st' : BST Int) (it : Option Nat) (r : Nat),
      st.root = some r →
      BST.insert lt eq fuel st t ku = .ok (st', it, true) →
      ∃ rn, lget st'.heap r = some rn ∧ (it = rn.pLeft ∨ it = rn.pRight)) ∧
    (do
      let st ← buildInt [2, 1, 3] true
      let (st', it, ins) ← BST.insert intLt intEq 100 st 0 true
      pure (it, ins, childView st'.heap it, childView st'.heap (some 3)))
      = .ok (some 1, true, some (1, false), some (0, true)) ∧
    (do
      let st ← buildInt [2, 1, 3] true
      let (st', it, ins) ← BST.insert intLt intEq 100 st 4 true
      pure (it, ins, childView st'.heap it, childView st'.heap (some 3)))
      = .ok (some 2, true, some (3, false), some (4, true)) := by
  refine ⟨?_, by decide, by decide⟩
  intro lt eq fuel st t ku st' it r hroot hrun
  unfold BST.insert at hrun
  rw [hroot] at hrun
  obtain ⟨⟨h1, it1, ins⟩, hia, hrest⟩ := exc_bind_eq_ok hrun
  obtain ⟨nr, hw, hrest⟩ := exc_bind_eq_ok hrest
  simp only [Except.ok.injEq, Prod.mk.injEq] at hrest
  obtain ⟨hst, hit, hins⟩ := hrest
  subst hins
  subst hit
  have hres := insertAux_ok_true_iter lt eq fuel st.heap r r t ku h1 it1 hia
  rw [← hst]
  exact hres

/-- Witness for C9 at a concrete input: inserting 0 into the tree built
from 2, 1, 3 (root at address 0 holding 2). -/
theorem c9_witness :
    (⟨[some ⟨2, some 1, some 2, none, false⟩, some ⟨1, none, none, some 0, true⟩,
        some ⟨3, none, none, some 0, true⟩], some 0, 3⟩ : BST Int).root = some 0 ∧
    BST.insert intLt intEq 100
      (⟨[some ⟨2, some 1, some 2, none, false⟩, some ⟨1, none, none, some 0, true⟩,
        some ⟨3, none, none, some 0, true⟩], some 0, 3⟩ : BST Int) 0 true =
      .ok ((⟨[some ⟨2, some 1, some 2, none, false⟩, some ⟨1, some 3, none, some 0, false⟩,
        some ⟨3, none, none, some 0, false⟩, some ⟨0, none, none, some 1, true⟩],
        some 0, 4⟩ : BST Int), some 1, true) ∧
    (∃ rn, lget (⟨[some ⟨2, some 1, some 2, none, false⟩,
        some ⟨1, some 3, none, some 0, false⟩, some ⟨3, none, none, some 0, false⟩,
        some ⟨0, none, none, some 1, true⟩], some 0, 4⟩ : BST Int).heap 0 = some rn ∧
      ((some 1 : Option Nat) = rn.pLeft ∨ (some 1 : Option Nat) = rn.pRight)) :=
  ⟨rfl, by decide,
   c9_insert_iterator_from_root_child.1 intLt intEq 100
     ⟨[some ⟨2, some 1, some 2, none, false⟩, some ⟨1, none, none, some 0, true⟩,
       some ⟨3, none, none, some 0, true⟩], some 0, 3⟩ 0 true
     ⟨[some ⟨2, some 1, some 2, none, false⟩, some ⟨1, some 3, none, some 0, false⟩,
       some ⟨3, none, none, some 0, false⟩, some ⟨0, none, none, some 1, true⟩], some 0, 4⟩
     (some 1) 0 rfl (by decide)⟩

/-- C10: after move-construction the moved-from source has a null root,
size 0 and `begin() = end()` (the null iterator), and the destination is
exactly the old source; after move-assignment (`clear(); swap(rhs);`) the
moved-from source is likewise empty and the destination took over the
source's pool, root and count. -/
theorem c10_move_leaves_source_empty :
    (∀ (src : BST Int),
      (BST.moveCtor src).1 = src ∧
      (BST.moveCtor src).2.root = none ∧
      (BST.moveCtor src).2.numElements = 0 ∧
      (∀ fuel, BST.begin fuel (BST.moveCtor src).2 = .ok none)) ∧
    (∀ (fuel : Nat) (dst src d s : BST Int),
      BST.moveAssign fuel dst src = .ok (d, s) →
      d.heap = src.heap ∧ d.root = src.root ∧ d.numElements = src.numElements ∧
      s.root = none ∧ s.numElements = 0 ∧ (∀ f2, BST.begin f2 s = .ok none)) := by
  refine ⟨fun src => ⟨rfl, rfl, rfl, fun fuel => rfl⟩, ?_⟩
  intro fuel dst src d s hrun
  unfold BST.moveAssign BST.clear at hrun
  obtain ⟨d0, hc, hrun⟩ := exc_bind_eq_ok hrun
  obtain ⟨hh, hc2, hrun2⟩ := exc_bind_eq_ok hc
  simp only [Except.ok.injEq] at hrun2
  rw [← hrun2] at hrun
  simp only [BST.swapT, Except.ok.injEq, Prod.mk.injEq] at hrun
  obtain ⟨hd, hs⟩ := hrun
  rw [← hd, ← hs]
  exact ⟨rfl, rfl, rfl, rfl, rfl, fun f2 => rfl⟩

/-- Witness for C10 at a concrete input: move-assigning the two-node tree
holding 10, 20 over a one-node tree holding 5. -/
theorem c10_witness :
    BST.moveAssign 10 (⟨[some ⟨5, none, none, none, false⟩], some 0, 1⟩ : BST Int)
      ⟨[some ⟨10, none, some 1, none, false⟩, some ⟨20, none, none, some 0, true⟩], some 0, 2⟩ =
      .ok (⟨[some ⟨10, none, some 1, none, false⟩, some ⟨20, none, none, some 0, true⟩],
              some 0, 2⟩,
           ⟨[none], none, 0⟩) ∧
    ((⟨[some ⟨10, none, some 1, none, false⟩, some ⟨20, none, none, some 0, true⟩],
        some 0, 2⟩ : BST Int).heap =
      (⟨[some ⟨10, none, some 1, none, false⟩, some ⟨20, none, none, some 0, true⟩],
        some 0, 2⟩ : BST Int).heap ∧
      (⟨[some ⟨10, none, some 1, none, false⟩, some ⟨20, none, none, some 0, true⟩],
        some 0, 2⟩ : BST Int).root =
      (⟨[some ⟨10, none, some 1, none, false⟩, some ⟨20, none, none, some 0, true⟩],
        some 0, 2⟩ : BST Int).root ∧
      (⟨[some ⟨10, none, some 1, none, false⟩, some ⟨20, none, none, some 0, true⟩],
        some 0, 2⟩ : BST Int).numElements =
      (⟨[some ⟨10, none, some 1, none, false⟩, some ⟨20, none, none, some 0, true⟩],
        some 0, 2⟩ : BST Int).numElements ∧
      (⟨[none], none, 0⟩ : BST Int).root = none ∧
      (⟨[none], none, 0⟩ : BST Int).numElements = 0 ∧
      (∀ f2, BST.begin f2 (⟨[none], none, 0⟩ : BST Int) = .ok none)) :=
  ⟨by decide,
   c10_move_leaves_source_empty.2 10
     ⟨[some ⟨5, none, none, none, false⟩], some 0, 1⟩
     ⟨[some ⟨10, none, some 1, none, false⟩, some ⟨20, none, none, some 0, true⟩], some 0, 2⟩
     ⟨[some ⟨10, none, some 1, none, false⟩, some ⟨20, none, none, some 0, true⟩], some 0, 2⟩
     ⟨[none], none, 0⟩ (by decide)⟩

/-- Writing beyond the pool's length is a no-op. -/
theorem lset_oob {α : Type} : ∀ (h : Heap α) (a : Nat) (v : Option (BNode α)),
    h.length ≤ a → lset h a v = h := by
  intro h
  induction h with
  | nil => intro a v _; rfl
  | cons x xs ih =>
    intro a v hle
    cases a with
    | zero => simp at hle
    | succ b =>
      simp only [lset]
      rw [ih b v (by simpa using hle)]

/-- A successful read is within the pool's length. -/
theorem lget_some_lt {α : Type} : ∀ (h : Heap α) (a : Nat) (n : BNode α),
    lget h a = some n → a < h.length := by
  intro h
  induction h with
  | nil => intro a n hx; simp [lget] at hx
  | cons x xs ih =>
    intro a n hx
    cases a with
    | zero => simp
    | succ b =>
      simp only [lget] at hx
      simpa using ih b n hx

/-- Reading back the slot just written. -/
theorem lget_lset_self {α : Type} : ∀ (h : Heap α) (a : Nat) (v : Option (BNode α)),
    a < h.length → lget (lset h a v) a = v := by
  intro h
  induction h with
  | nil => intro a v hlt; simp at hlt
  | cons x xs ih =>
    intro a v hlt
    cases a with
    | zero => rfl
    | succ b => exact ih b v (by simpa using hlt)

/-- Reading a slot other than the one written. -/
theorem lget_lset_other {α : Type} : ∀ (h : Heap α) (a b : Nat) (v : Option (BNode α)),
    b ≠ a → lget (lset h a v) b = lget h b := by
  intro h
  induction h with
  | nil => intro a b v _; rfl
  | cons x xs ih =>
    intro a b v hne
    cases a with
    | zero =>
      cases b with
      | zero => exact absurd rfl hne
      | succ c => rfl
    | succ a' =>
      cases b with
      | zero => rfl
      | succ c => exact ih a' c v (by omega)

/-- Reading after an in-place node mutation. -/
theorem lget_hmod {α : Type} (h : Heap α) (x : Nat) (f : BNode α → BNode α) (y : Nat) :
    lget (hmod h x f) y = if y = x then (lget h x).map f else lget h y := by
  unfold hmod
  cases hx : lget h x with
  | none =>
    by_cases hyx : y = x
    · subst hyx; simp [hx]
    · simp [hyx]
  | some n =>
    by_cases hyx : y = x
    · subst hyx
      rw [lget_lset_self _ _ _ (lget_some_lt _ _ _ hx)]
      simp [hx]
    · rw [lget_lset_other _ _ _ _ hyx]
      simp [hyx]

/-- Two pools whose nodes agree on liveness and `pParent` everywhere give
every node the same parent-chain length. -/
theorem upDepth_congr {α : Type} (h1 h2 : Heap α)
    (hp : ∀ b, (lget h1 b).map BNode.pParent = (lget h2 b).map BNode.pParent) :
    ∀ (fl a : Nat), upDepth fl h1 a = upDepth fl h2 a := by
  intro fl
  induction fl with
  | zero => intro a; rfl
  | succ g ih =>
    intro a
    simp only [upDepth]
    rw [hp a]
    cases hs : (lget h2 a).map BNode.pParent with
    | none => rfl
    | some po =>
      cases po with
      | none => rfl
      | some pa => simp only [ih pa]

/-- A node mutation that preserves the `pParent` member preserves the
parent-chain length of every node. -/
theorem upDepth_hmod_pp {α : Type} (x : Nat) (f : BNode α → BNode α)
    (hf : ∀ n, (f n).pParent = n.pParent) :
    ∀ (fl : Nat) (h : Heap α) (a : Nat), upDepth fl (hmod h x f) a = upDepth fl h a := by
  intro fl h a
  refine upDepth_congr (hmod h x f) h (fun b => ?_) fl a
  rw [lget_hmod]
  by_cases hbx : b = x
  · subst hbx
    cases hx : lget h b with
    | none => simp
    | some n => simp [hf n]
  · simp [hbx]

/-- Recoloring a node preserves every parent-chain length. -/
theorem upDepth_setRed {α : Type} (h : Heap α) (x : Nat) (b : Bool) (fl a : Nat) :
    upDepth fl (setRed h x b) a = upDepth fl h a := by
  show upDepth fl (hmod h x (fun n => { n with isRed := b })) a = upDepth fl h a
  exact upDepth_hmod_pp x (fun n => { n with isRed := b }) (fun _ => rfl) fl h a

/-- A lifted memory-level computation never reports fuel exhaustion. -/
theorem liftE_ne_fuel {b : Type} (x : Except HErr b) : liftE x ≠ .error .fuel := by
  cases x <;> simp [liftE]

/-- A defined parent-chain length means the node itself is live. -/
theorem upDepth_some_lget {α : Type} (fl : Nat) (h : Heap α) (a d : Nat)
    (hx : upDepth fl h a = some d) : ∃ n, lget h a = some n := by
  cases fl with
  | zero => cases hx
  | succ g =>
    simp only [upDepth] at hx
    cases hn : lget h a with
    | none => rw [hn] at hx; cases hx
    | some n => exact ⟨n, rfl⟩

/-- Stepping a defined parent chain through an existing parent pointer:
the parent's chain is one shorter and defined at one less fuel. -/
theorem upDepth_succ_of_parent {α : Type} (fl : Nat) (h : Heap α) (a : Nat)
    (n : BNode α) (pa : Nat) (d : Nat)
    (hx : upDepth fl h a = some d) (hn : lget h a = some n) (hp : n.pParent = some pa) :
    ∃ fl' d', fl = fl' + 1 ∧ upDepth fl' h pa = some d' ∧ d = d' + 1 := by
  cases fl with
  | zero => cases hx
  | succ g =>
    simp only [upDepth, hn, Option.map_some', hp] at hx
    cases hdp : upDepth g h pa with
    | none => rw [hdp] at hx; cases hx
    | some d' =>
      rw [hdp] at hx
      simp only [Option.map_some', Option.some.injEq] at hx
      exact ⟨g, d', rfl, hdp, hx.symm⟩

/-- C8: `BNode::balance` terminates on every node whose parent chain is
finite (as in any finite tree): with any fuel exceeding the node's
parent-chain length, the run never reports fuel exhaustion.  The root case
and the black-parent case return directly, the red-aunt case recurses only
on the grandparent — whose parent chain is exactly two shorter — and each
rotation case performs its one rotation without recursing. -/
theorem c8_balance_terminates :
    ∀ (fuel : Nat) {α : Type} (h : Heap α) (a f0 d : Nat),
      upDepth f0 h a = some d → d < fuel → balance fuel h a ≠ .error .fuel := by
  intro fuel
  induction fuel with
  | zero =>
    intro α h a f0 d hd hlt
    exact absurd hlt (Nat.not_lt_zero d)
  | succ f ih =>
    intro α h a f0 d hd hlt hbal
    obtain ⟨n, hn⟩ := upDepth_some_lget f0 h a d hd
    simp only [balance, nodeAt, deref, hn, liftE, exc_bind_ok] at hbal
    cases hp : n.pParent with
    | none => rw [hp] at hbal; cases hbal
    | some pa =>
      rw [hp] at hbal
      obtain ⟨f1, d1, hf0, hdp, hd1⟩ := upDepth_succ_of_parent f0 h a n pa d hd hn hp
      obtain ⟨pn, hpn⟩ := upDepth_some_lget f1 h pa d1 hdp
      simp only [nodeAt, deref, hpn, liftE, exc_bind_ok] at hbal
      cases hred : pn.isRed with
      | false => rw [hred] at hbal; simp at hbal
      | true =>
        rw [hred] at hbal
        simp only [Bool.not_true, Bool.false_eq_true, if_false] at hbal
        cases hgp : pn.pParent with
        | none => rw [hgp] at hbal; simp at hbal
        | some gp =>
          rw [hgp] at hbal
          obtain ⟨f2, d2, hf1, hdgp, hd2⟩ :=
            upDepth_succ_of_parent f1 h pa pn gp d1 hdp hpn hgp
          obtain ⟨gpn, hgpn⟩ := upDepth_some_lget f2 h gp d2 hdgp
          simp only [nodeAt, deref, hgpn, liftE, exc_bind_ok] at hbal
          cases haunt : (if (some pa == gpn.pLeft) then gpn.pRight else gpn.pLeft) with
          | none => rw [haunt] at hbal; exact liftE_ne_fuel _ hbal
          | some au =>
            rw [haunt] at hbal
            cases hau : lget h au with
            | none =>
              simp only [nodeAt, deref, hau, liftE, exc_bind_err] at hbal
              simp at hbal
            | some an =>
              simp only [nodeAt, deref, hau, liftE, exc_bind_ok] at hbal
              cases hanred : an.isRed with
              | false =>
                rw [hanred] at hbal
                simp only [Bool.false_eq_true, if_false] at hbal
                exact liftE_ne_fuel _ hbal
              | true =>
                rw [hanred] at hbal
                simp only [eq_self_iff_true, if_true] at hbal
                cases hrec : balance f (setRed h gp true) gp with
                | ok h2 =>
                  rw [hrec, exc_bind_ok] at hbal
                  cases hpp : parentOf h2 a with
                  | error e => rw [hpp] at hbal; simp [liftE, exc_bind_err] at hbal
                  | ok pp =>
                    rw [hpp] at hbal
                    simp only [liftE, exc_bind_ok] at hbal
                    cases hreq : reqAddr pp with
                    | error e2 => rw [hreq] at hbal; simp [liftE, exc_bind_err] at hbal
                    | ok paA =>
                      rw [hreq] at hbal
                      simp [liftE, exc_bind_ok] at hbal
                | error e =>
                  rw [hrec, exc_bind_err] at hbal
                  injection hbal with he
                  rw [he] at hrec
                  have hud : upDepth f2 (setRed h gp true) gp = some d2 := by
                    rw [upDepth_setRed]; exact hdgp
                  exact ih (setRed h gp true) gp f2 d2 hud (by omega) hrec

/-- Witness for C8 at a concrete input: the two-node heap with a black
root holding 7 (address 1) and its red left child holding 5 (address 0),
balanced from the child with fuel 2. -/
theorem c8_witness :
    upDepth 5 ([some ⟨5, none, none, some 1, true⟩,
      some ⟨7, some 0, none, none, false⟩] : Heap Int) 0 = some 1 ∧
    (1 : Nat) < 2 ∧
    balance 2 ([some ⟨5, none, none, some 1, true⟩,
      some ⟨7, some 0, none, none, false⟩] : Heap Int) 0 ≠ .error .fuel :=
  ⟨by decide, by decide,
   c8_balance_terminates 2
     [some ⟨5, none, none, some 1, true⟩, some ⟨7, some 0, none, none, false⟩]
     0 5 1 (by decide) (by decide)⟩
